import Mathlib

/-!
Shallow embedding of the `html_reporter` package (result collector in
`result.py`, report aggregator in `runner.py`), together with theorems
checking the specification's claims against it.
-/

namespace HtmlReporter

/-- `TestStatus` enum from `status.py`. -/
inductive TestStatus where
  | PASS
  | FAIL
  | ERROR
  | SKIP
deriving DecidableEq, Repr

/-- The class of a test case (`test_case.__class__`): its defining module
name (`__module__`), its bare name (`__name__`) and its optional docstring
(`__doc__`). -/
structure TestClass where
  module : String
  name : String
  doc : Option String
deriving DecidableEq, Repr

/-- A `unittest.TestCase` instance, as seen by this package: its class, the
string returned by `id()`, and the value of `shortDescription()` (`None` or
the first line of the method docstring). -/
structure TestCase where
  cls : TestClass
  id : String
  shortDescription : Option String
deriving DecidableEq, Repr

/-- `TestCaseResult` dataclass from `result.py`. -/
structure TestCaseResult where
  status : TestStatus
  test_case : TestCase
  output : String
  error : String
deriving DecidableEq, Repr

/-- An output stream object: either a real OS-level stream (identified by a
number) or one of the two module-level redirector singletons of `result.py`. -/
inductive Stream where
  | real (id : Nat)
  | stdoutRedirector
  | stderrRedirector
deriving DecidableEq, Repr

/-- The mutable state visible to `HTMLTestResult` in `result.py`: the
process-wide `sys.stdout` / `sys.stderr` bindings (Python allows `None`
there, hence `Option`), plus the fields set by `HTMLTestResult.__init__`:
`outputBuffer` (a `StringIO`, modelled by its accumulated text), the saved
streams `stdout0` / `stderr0`, the four counters and the `result` list. -/
structure ResultState where
  sysStdout : Option Stream
  sysStderr : Option Stream
  outputBuffer : Option String
  stdout0 : Option Stream
  stderr0 : Option Stream
  pass_count : Nat
  fail_count : Nat
  error_count : Nat
  skip_count : Nat
  result : List TestCaseResult
deriving DecidableEq, Repr

/-- `HTMLTestResult.__init__`: `outputBuffer`, `stdout0`, `stderr0` start as
`None`, the counters at `0` and `result` empty; the process streams are
whatever they were. -/
def initState (o e : Option Stream) : ResultState :=
  { sysStdout := o
    sysStderr := e
    outputBuffer := none
    stdout0 := none
    stderr0 := none
    pass_count := 0
    fail_count := 0
    error_count := 0
    skip_count := 0
    result := [] }

/-- The `if self.stdout0:` block of `HTMLTestResult.complete_output`: when
`self.stdout0` is truthy (a stream object; `None` is falsy), restore
`sys.stdout` / `sys.stderr` from the saved values and clear them. -/
def restoreStreams (s : ResultState) : ResultState :=
  if s.stdout0.isSome then
    { s with sysStdout := s.stdout0
             sysStderr := s.stderr0
             stdout0 := none
             stderr0 := none }
  else s

/-- `HTMLTestResult.complete_output`: run the restore block, then return
`self.outputBuffer.getvalue()`.  When `outputBuffer` is `None` the call to
`getvalue()` raises an `AttributeError` (`none` result). -/
def complete_output (s : ResultState) : Option (String × ResultState) :=
  match (restoreStreams s).outputBuffer with
  | none => none
  | some buf => some (buf, restoreStreams s)

/-- The lifecycle callbacks `unittest` delivers to `HTMLTestResult`, plus a
`write` event for text written through the redirector singletons while a
test runs.  `addError` / `addFailure` carry the exception text the framework
formats into `self.errors[-1]` / `self.failures[-1]`; `addSkip` carries the
reason string. -/
inductive TestEvent where
  | startTest (test : TestCase)
  | write (text : String)
  | addSuccess (test : TestCase)
  | addError (test : TestCase) (excStr : String)
  | addFailure (test : TestCase) (excStr : String)
  | addSkip (test : TestCase) (reason : String)
  | stopTest (test : TestCase)
deriving DecidableEq, Repr

/-- One lifecycle callback of `HTMLTestResult` (`result.py`).  `none` means
the Python code raised (only possible through `complete_output` when
`outputBuffer` is `None`). -/
def step (s : ResultState) : TestEvent → Option ResultState
  | .startTest _ =>
      some { s with outputBuffer := some ""
                    stdout0 := s.sysStdout
                    stderr0 := s.sysStderr
                    sysStdout := some Stream.stdoutRedirector
                    sysStderr := some Stream.stderrRedirector }
  | .write t =>
      match s.outputBuffer with
      | none => none
      | some buf => some { s with outputBuffer := some (buf ++ t) }
  | .addSuccess test =>
      match complete_output { s with pass_count := s.pass_count + 1 } with
      | none => none
      | some (output, s') =>
          some { s' with result := s'.result ++ [⟨TestStatus.PASS, test, output, ""⟩] }
  | .addError test excStr =>
      match complete_output { s with error_count := s.error_count + 1 } with
      | none => none
      | some (output, s') =>
          some { s' with result := s'.result ++ [⟨TestStatus.ERROR, test, output, excStr⟩] }
  | .addFailure test excStr =>
      match complete_output { s with fail_count := s.fail_count + 1 } with
      | none => none
      | some (output, s') =>
          some { s' with result := s'.result ++ [⟨TestStatus.FAIL, test, output, excStr⟩] }
  | .addSkip test reason =>
      match complete_output { s with skip_count := s.skip_count + 1 } with
      | none => none
      | some (output, s') =>
          some { s' with result := s'.result ++ [⟨TestStatus.SKIP, test, output, reason⟩] }
  | .stopTest _ =>
      match complete_output s with
      | none => none
      | some (_, s') => some s'

/-- A whole run: the framework delivers the callbacks in order. -/
def runEvents (events : List TestEvent) (s : ResultState) : Option ResultState :=
  match events with
  | [] => some s
  | ev :: rest =>
      match step s ev with
      | none => none
      | some s' => runEvents rest s'

/-- `HTMLTestResult.total_count`. -/
def ResultState.total_count (s : ResultState) : Nat :=
  s.pass_count + s.fail_count + s.error_count + s.skip_count

/-- Number of recorded results with a given status. -/
def countStatus (st : TestStatus) (l : List TestCaseResult) : Nat :=
  (l.filter (fun r => r.status = st)).length

/-- The four counters agree with the status counts of the `result` list. -/
def countsInv (s : ResultState) : Prop :=
    s.pass_count = countStatus TestStatus.PASS s.result
  ∧ s.fail_count = countStatus TestStatus.FAIL s.result
  ∧ s.error_count = countStatus TestStatus.ERROR s.result
  ∧ s.skip_count = countStatus TestStatus.SKIP s.result

/-- A recorded entry's `error` field is consistent with its status relative
to the callbacks the framework delivered: empty for a pass, the
framework-supplied exception text for an error/failure, the supplied skip
reason for a skip. -/
def errorConsistent (events : List TestEvent) (r : TestCaseResult) : Prop :=
    (r.status = TestStatus.PASS → r.error = "")
  ∧ (r.status = TestStatus.ERROR → TestEvent.addError r.test_case r.error ∈ events)
  ∧ (r.status = TestStatus.FAIL → TestEvent.addFailure r.test_case r.error ∈ events)
  ∧ (r.status = TestStatus.SKIP → TestEvent.addSkip r.test_case r.error ∈ events)

/-- The decimal digit characters, as produced by Python string formatting. -/
def digitChar : Nat → Char
  | 0 => '0'
  | 1 => '1'
  | 2 => '2'
  | 3 => '3'
  | 4 => '4'
  | 5 => '5'
  | 6 => '6'
  | 7 => '7'
  | 8 => '8'
  | 9 => '9'
  | _ => '*'

/-- Decimal digit list of a natural number (fuel-based structural recursion;
the fuel `n + 1` always suffices because the argument at least halves). -/
def decDigitsAux : Nat → Nat → List Char
  | 0, _ => []
  | fuel + 1, n =>
      if n < 10 then [digitChar n]
      else decDigitsAux fuel (n / 10) ++ [digitChar (n % 10)]

/-- Decimal digit list of a natural number. -/
def decDigits (n : Nat) : List Char := decDigitsAux (n + 1) n

/-- Decimal rendering of a natural number, as Python's `f"{n}"` produces. -/
def natStr (n : Nat) : String := String.mk (decDigits n)

/-- Numeric value of a digit character. -/
def digitVal (c : Char) : Nat := c.toNat - 48

/-- Numeric value of a decimal digit list. -/
def decVal (l : List Char) : Nat := l.foldl (fun a c => a * 10 + digitVal c) 0

/-- Python's `s.split("\n")[0]`: the characters before the first newline. -/
def firstLine (s : String) : String :=
  String.mk (s.data.takeWhile (fun c => c ≠ '\n'))

/-- Python's `s.split('.')[-1]`: the characters after the last dot. -/
def lastDotComponent (s : String) : String :=
  String.mk ((s.data.reverse.takeWhile (fun c => c ≠ '.')).reverse)

/-- `TestCaseReport` dataclass from `runner.py` (`detail` may be `None`). -/
structure TestCaseReport where
  tid : String
  desc : String
  status : TestStatus
  detail : Option String
deriving DecidableEq, Repr

/-- `TestGroupReport` dataclass from `runner.py`. -/
structure TestGroupReport where
  cid : String
  desc : String
  pass_count : Nat
  fail_count : Nat
  error_count : Nat
  skip_count : Nat
  test_cases : List TestCaseReport
deriving DecidableEq, Repr

/-- `TestGroupReport.total_count`, exactly as written in `runner.py`
(its second summand `fail_count` appears twice and `error_count` does not
appear). -/
def TestGroupReport.total_count (g : TestGroupReport) : Nat :=
  g.pass_count + g.fail_count + g.fail_count + g.skip_count

/-- The `test_code` if/elif chain of
`HTMLTestRunner.generate_test_case_report`: `"p"` unless the status is
`FAIL` / `ERROR` / `SKIP`. -/
def statusCode (st : TestStatus) : String :=
  if st = TestStatus.FAIL then "f"
  else if st = TestStatus.ERROR then "e"
  else if st = TestStatus.SKIP then "s"
  else "p"

/-- `HTMLTestRunner.generate_test_case_report` (`cid` and `tid` are the
0-based group and in-group indices). -/
def generate_test_case_report (cid tid : Nat) (r : TestCaseResult) : TestCaseReport :=
  let test_code := statusCode r.status
  let test_case_id := test_code ++ "t" ++ natStr (cid + 1) ++ "." ++ natStr (tid + 1)
  let name := lastDotComponent r.test_case.id
  let doc := r.test_case.shortDescription.getD ""
  let desc := if doc ≠ "" then name ++ ": " ++ doc else name
  let detail := if r.output ≠ "" ∨ r.error ≠ ""
    then some (test_case_id ++ ": " ++ (r.output ++ r.error))
    else none
  ⟨test_case_id, desc, r.status, detail⟩

/-- The per-class subtotal loop of `HTMLTestRunner.generate_report_table`:
`(num_passes, num_fails, num_errors, num_skipped)`. -/
def subtotals (rs : List TestCaseResult) : Nat × Nat × Nat × Nat :=
  rs.foldl (fun t r =>
    match r.status with
    | .PASS => (t.1 + 1, t.2.1, t.2.2.1, t.2.2.2)
    | .FAIL => (t.1, t.2.1 + 1, t.2.2.1, t.2.2.2)
    | .ERROR => (t.1, t.2.1, t.2.2.1 + 1, t.2.2.2)
    | .SKIP => (t.1, t.2.1, t.2.2.1, t.2.2.2 + 1)) (0, 0, 0, 0)

/-- Lookup in the association list modelling the `rmap` dict of
`HTMLTestRunner._sort_result` (insertion-ordered, as Python dicts are). -/
def rmapFind (rmap : List (TestClass × List TestCaseResult)) (cls : TestClass) :
    Option (List TestCaseResult) :=
  match rmap with
  | [] => none
  | (c, l) :: rest => if c = cls then some l else rmapFind rest cls

/-- `rmap[cls].append(r)` on the association list. -/
def rmapAppend (rmap : List (TestClass × List TestCaseResult)) (cls : TestClass)
    (r : TestCaseResult) : List (TestClass × List TestCaseResult) :=
  match rmap with
  | [] => []
  | (c, l) :: rest =>
      if c = cls then (c, l ++ [r]) :: rest else (c, l) :: rmapAppend rest cls r

/-- The `for` loop of `HTMLTestRunner._sort_result`: for each result, if its
class is not yet a key of `rmap`, add the key (with the result as first
element) and append the class to `classes`; otherwise append the result to
the existing entry. -/
def sortLoop : List TestCaseResult → List (TestClass × List TestCaseResult) →
    List TestClass → List (TestClass × List TestCaseResult) × List TestClass
  | [], rmap, classes => (rmap, classes)
  | r :: rest, rmap, classes =>
      match rmapFind rmap r.test_case.cls with
      | none => sortLoop rest (rmap ++ [(r.test_case.cls, [r])])
          (classes ++ [r.test_case.cls])
      | some _ => sortLoop rest (rmapAppend rmap r.test_case.cls r) classes

/-- `HTMLTestRunner._sort_result`: group the flat result list by class and
return `[(cls, rmap[cls]) for cls in classes]`. -/
def _sort_result (result_list : List TestCaseResult) :
    List (TestClass × List TestCaseResult) :=
  let (rmap, classes) := sortLoop result_list [] []
  classes.map (fun cls => (cls, (rmapFind rmap cls).getD []))

/-- The first-seen class list accumulated left to right (used to state what
`_sort_result` computes). -/
def classesAfter (acc : List TestClass) (l : List TestCaseResult) : List TestClass :=
  l.foldl (fun a r => if r.test_case.cls ∈ a then a else a ++ [r.test_case.cls]) acc

/-- Index of the first result of class `c` in `l` (`l.length` if none). -/
def firstIdx (l : List TestCaseResult) (c : TestClass) : Nat :=
  List.findIdx (fun r => r.test_case.cls = c) l

/-- The qualified class name computed by `HTMLTestRunner.generate_report_table`:
the module prefix is dropped exactly for classes of the `__main__` module. -/
def qualifiedName (cls : TestClass) : String :=
  if cls.module = "__main__" then cls.name else cls.module ++ "." ++ cls.name

/-- The class-description lines of `HTMLTestRunner.generate_report_table`:
`doc` embeds Python's `cls.__doc__ and cls.__doc__.split("\n")[0] or ""`
(truthiness of `None` and of empty strings included), and the result embeds
`doc and f"{name}: {doc}" or name`. -/
def descOf (cls : TestClass) : String :=
  let name := qualifiedName cls
  let doc := match cls.doc with
    | none => ""
    | some d => if d = "" then "" else firstLine d
  if doc ≠ "" then name ++ ": " ++ doc else name

/-- `HTMLTestRunner.generate_report_table`, acting on the flat
`result.result` list. -/
def generate_report_table (result : List TestCaseResult) : List TestGroupReport :=
  let sorted_result := _sort_result result
  sorted_result.enum.map (fun p =>
    let cid := p.1
    let cls := p.2.1
    let cls_results := p.2.2
    let sub := subtotals cls_results
    let desc := descOf cls
    let test_cases := cls_results.enum.map (fun q => generate_test_case_report cid q.1 q.2)
    ⟨"c" ++ natStr (cid + 1), desc, sub.1, sub.2.1, sub.2.2.1, sub.2.2.2, test_cases⟩)

/-- The group description dictated by the (amended) specification sentence:
`"{qualifiedClassName}: {firstLineOfClassDocstring}"` when the class has a
docstring whose first line is nonempty, else just the qualified class name. -/
def groupDescSpec (cls : TestClass) : String :=
  match cls.doc with
  | some d => if firstLine d ≠ "" then qualifiedName cls ++ ": " ++ firstLine d
      else qualifiedName cls
  | none => qualifiedName cls

/-- The path constant `DEFAULT_TEMPLATE` of `runner.py`. -/
def DEFAULT_TEMPLATE : String := "templates/report_template.html"

/-- `HTMLTestRunner._load_template`, over an abstract read-only filesystem
`fs` (`fs p = none` models a path that does not exist or cannot be read).
The `Bool` records whether the diagnostic message was printed; `.error ()`
models an exception escaping to the caller (only possible if the built-in
default template itself cannot be read).  Python truthiness is embedded:
`if template:` is false for `None` and for an empty path string, and
`if not file:` treats an empty file as missing. -/
def _load_template (fs : String → Option String) (template : Option String) :
    Except Unit (String × Bool) :=
  let fd : Option String × Bool :=
    match template with
    | none => (none, false)
    | some p =>
        if p = "" then (none, false)
        else match fs p with
          | some contents => (some contents, false)
          | none => (none, true)
  let loaded := match fd.1 with
    | some c => if c = "" then none else some c
    | none => none
  match loaded with
  | some c => Except.ok (c, fd.2)
  | none =>
      match fs DEFAULT_TEMPLATE with
      | some d => Except.ok (d, fd.2)
      | none => Except.error ()

/-- A sample test case used by concrete witnesses. -/
def tcA : TestCase := ⟨⟨"mod", "A", none⟩, "mod.A.test_one", none⟩

/-- A concrete state in which a test has started: a buffer holding
`"hello"` exists and the real streams are saved. -/
def sStarted : ResultState :=
  ⟨some Stream.stdoutRedirector, some Stream.stderrRedirector,
   some "hello", some (Stream.real 1), some (Stream.real 2), 0, 0, 0, 0, []⟩

/-- The state `complete_output` reaches from `sStarted`. -/
def sDone : ResultState :=
  ⟨some (Stream.real 1), some (Stream.real 2),
   some "hello", none, none, 0, 0, 0, 0, []⟩

/-- A sample run: one started test that passes, then the stop hook. -/
def eventsW : List TestEvent :=
  [TestEvent.startTest tcA, TestEvent.addSuccess tcA, TestEvent.stopTest tcA]

/-- The state `eventsW` reaches from a freshly constructed result object. -/
def stateW : ResultState :=
  ⟨some (Stream.real 1), some (Stream.real 2), some "", none, none,
   1, 0, 0, 0, [⟨TestStatus.PASS, tcA, "", ""⟩]⟩

/-- A sample run in which one started test errors out, then the stop hook. -/
def eventsE : List TestEvent :=
  [TestEvent.startTest tcA, TestEvent.addError tcA "Traceback: boom", TestEvent.stopTest tcA]

/-- The state `eventsE` reaches from a freshly constructed result object. -/
def stateE : ResultState :=
  ⟨some (Stream.real 1), some (Stream.real 2), some "", none, none,
   0, 0, 1, 0, [⟨TestStatus.ERROR, tcA, "", "Traceback: boom"⟩]⟩

/-- The single entry recorded by `eventsE`. -/
def entryE : TestCaseResult := ⟨TestStatus.ERROR, tcA, "", "Traceback: boom"⟩

/-- Sample classes and test cases for report witnesses. -/
def clsB : TestClass := ⟨"mod", "B", some "B docstring"⟩

def clsC : TestClass := ⟨"__main__", "C", none⟩

def tcB : TestCase := ⟨clsB, "mod.B.test_b", some "checks B"⟩

def tcC : TestCase := ⟨clsC, "C.test_c", none⟩

/-- A flat result list spanning three classes; the 2nd test of the 3rd
group is an `ERROR`. -/
def resultsW : List TestCaseResult :=
  [⟨TestStatus.PASS, tcA, "", ""⟩,
   ⟨TestStatus.PASS, tcB, "", ""⟩,
   ⟨TestStatus.PASS, tcC, "", ""⟩,
   ⟨TestStatus.ERROR, tcC, "", "tb"⟩]

/-- The group of `clsC` produced by `_sort_result resultsW`. -/
def gC : TestClass × List TestCaseResult :=
  (clsC, [⟨TestStatus.PASS, tcC, "", ""⟩, ⟨TestStatus.ERROR, tcC, "", "tb"⟩])

/-- A class whose docstring is nonempty but starts with a newline, so the
first docstring line is empty. -/
def clsD : TestClass := ⟨"mod", "D", some "\nSecond line"⟩

def tcD : TestCase := ⟨clsD, "mod.D.test_d", none⟩

/-- A run with one passing test of `clsD`. -/
def resultsD : List TestCaseResult := [⟨TestStatus.PASS, tcD, "", ""⟩]

lemma restoreStreams_outputBuffer (s : ResultState) :
    (restoreStreams s).outputBuffer = s.outputBuffer := by
  unfold restoreStreams
  split <;> rfl

lemma restoreStreams_counts (s : ResultState) :
    (restoreStreams s).pass_count = s.pass_count
  ∧ (restoreStreams s).fail_count = s.fail_count
  ∧ (restoreStreams s).error_count = s.error_count
  ∧ (restoreStreams s).skip_count = s.skip_count
  ∧ (restoreStreams s).result = s.result := by
  unfold restoreStreams
  split <;> exact ⟨rfl, rfl, rfl, rfl, rfl⟩

lemma complete_output_some (s : ResultState) (out : String) (s' : ResultState)
    (h : complete_output s = some (out, s')) :
    s' = restoreStreams s ∧ s.outputBuffer = some out := by
  unfold complete_output at h
  cases hob : (restoreStreams s).outputBuffer with
  | none => rw [hob] at h; cases h
  | some b =>
    rw [hob] at h
    obtain ⟨rfl, rfl⟩ := Prod.mk.injEq .. ▸ Option.some.inj h
    rw [restoreStreams_outputBuffer] at hob
    exact ⟨rfl, hob⟩

lemma step_startTest_eq (s : ResultState) (t : TestCase) (s₁ : ResultState)
    (h : step s (TestEvent.startTest t) = some s₁) :
    s₁.pass_count = s.pass_count ∧ s₁.fail_count = s.fail_count
  ∧ s₁.error_count = s.error_count ∧ s₁.skip_count = s.skip_count
  ∧ s₁.result = s.result := by
  simp only [step, Option.some.injEq] at h
  subst h
  exact ⟨rfl, rfl, rfl, rfl, rfl⟩

lemma step_write_eq (s : ResultState) (t : String) (s₁ : ResultState)
    (h : step s (TestEvent.write t) = some s₁) :
    s₁.pass_count = s.pass_count ∧ s₁.fail_count = s.fail_count
  ∧ s₁.error_count = s.error_count ∧ s₁.skip_count = s.skip_count
  ∧ s₁.result = s.result := by
  simp only [step] at h
  cases hob : s.outputBuffer with
  | none => rw [hob] at h; cases h
  | some b =>
    rw [hob] at h
    obtain rfl := Option.some.inj h
    exact ⟨rfl, rfl, rfl, rfl, rfl⟩

lemma step_stopTest_eq (s : ResultState) (t : TestCase) (s₁ : ResultState)
    (h : step s (TestEvent.stopTest t) = some s₁) :
    s₁.pass_count = s.pass_count ∧ s₁.fail_count = s.fail_count
  ∧ s₁.error_count = s.error_count ∧ s₁.skip_count = s.skip_count
  ∧ s₁.result = s.result := by
  simp only [step] at h
  cases hco : complete_output s with
  | none => rw [hco] at h; cases h
  | some p =>
    obtain ⟨out, s'⟩ := p
    rw [hco] at h
    obtain rfl := Option.some.inj h
    obtain ⟨hs', -⟩ := complete_output_some _ _ _ hco
    subst hs'
    exact restoreStreams_counts s

lemma step_addSuccess_eq (s : ResultState) (t : TestCase) (s₁ : ResultState)
    (h : step s (TestEvent.addSuccess t) = some s₁) :
    ∃ out, s.outputBuffer = some out
      ∧ s₁.pass_count = s.pass_count + 1
      ∧ s₁.fail_count = s.fail_count
      ∧ s₁.error_count = s.error_count
      ∧ s₁.skip_count = s.skip_count
      ∧ s₁.result = s.result ++ [⟨TestStatus.PASS, t, out, ""⟩] := by
  simp only [step] at h
  cases hco : complete_output { s with pass_count := s.pass_count + 1 } with
  | none => rw [hco] at h; cases h
  | some p =>
    obtain ⟨out, s'⟩ := p
    rw [hco] at h
    obtain rfl := Option.some.inj h
    obtain ⟨hs', hob⟩ := complete_output_some _ _ _ hco
    subst hs'
    obtain ⟨h1, h2, h3, h4, h5⟩ :=
      restoreStreams_counts { s with pass_count := s.pass_count + 1 }
    exact ⟨out, hob, h1, h2, h3, h4, by rw [h5]⟩

lemma step_addError_eq (s : ResultState) (t : TestCase) (ex : String) (s₁ : ResultState)
    (h : step s (TestEvent.addError t ex) = some s₁) :
    ∃ out, s.outputBuffer = some out
      ∧ s₁.pass_count = s.pass_count
      ∧ s₁.fail_count = s.fail_count
      ∧ s₁.error_count = s.error_count + 1
      ∧ s₁.skip_count = s.skip_count
      ∧ s₁.result = s.result ++ [⟨TestStatus.ERROR, t, out, ex⟩] := by
  simp only [step] at h
  cases hco : complete_output { s with error_count := s.error_count + 1 } with
  | none => rw [hco] at h; cases h
  | some p =>
    obtain ⟨out, s'⟩ := p
    rw [hco] at h
    obtain rfl := Option.some.inj h
    obtain ⟨hs', hob⟩ := complete_output_some _ _ _ hco
    subst hs'
    obtain ⟨h1, h2, h3, h4, h5⟩ :=
      restoreStreams_counts { s with error_count := s.error_count + 1 }
    exact ⟨out, hob, h1, h2, h3, h4, by rw [h5]⟩

lemma step_addFailure_eq (s : ResultState) (t : TestCase) (ex : String) (s₁ : ResultState)
    (h : step s (TestEvent.addFailure t ex) = some s₁) :
    ∃ out, s.outputBuffer = some out
      ∧ s₁.pass_count = s.pass_count
      ∧ s₁.fail_count = s.fail_count + 1
      ∧ s₁.error_count = s.error_count
      ∧ s₁.skip_count = s.skip_count
      ∧ s₁.result = s.result ++ [⟨TestStatus.FAIL, t, out, ex⟩] := by
  simp only [step] at h
  cases hco : complete_output { s with fail_count := s.fail_count + 1 } with
  | none => rw [hco] at h; cases h
  | some p =>
    obtain ⟨out, s'⟩ := p
    rw [hco] at h
    obtain rfl := Option.some.inj h
    obtain ⟨hs', hob⟩ := complete_output_some _ _ _ hco
    subst hs'
    obtain ⟨h1, h2, h3, h4, h5⟩ :=
      restoreStreams_counts { s with fail_count := s.fail_count + 1 }
    exact ⟨out, hob, h1, h2, h3, h4, by rw [h5]⟩

lemma step_addSkip_eq (s : ResultState) (t : TestCase) (reason : String) (s₁ : ResultState)
    (h : step s (TestEvent.addSkip t reason) = some s₁) :
    ∃ out, s.outputBuffer = some out
      ∧ s₁.pass_count = s.pass_count
      ∧ s₁.fail_count = s.fail_count
      ∧ s₁.error_count = s.error_count
      ∧ s₁.skip_count = s.skip_count + 1
      ∧ s₁.result = s.result ++ [⟨TestStatus.SKIP, t, out, reason⟩] := by
  simp only [step] at h
  cases hco : complete_output { s with skip_count := s.skip_count + 1 } with
  | none => rw [hco] at h; cases h
  | some p =>
    obtain ⟨out, s'⟩ := p
    rw [hco] at h
    obtain rfl := Option.some.inj h
    obtain ⟨hs', hob⟩ := complete_output_some _ _ _ hco
    subst hs'
    obtain ⟨h1, h2, h3, h4, h5⟩ :=
      restoreStreams_counts { s with skip_count := s.skip_count + 1 }
    exact ⟨out, hob, h1, h2, h3, h4, by rw [h5]⟩

/-- C2: after a test has started (a buffer exists and the real streams have
been saved), `complete_output` succeeds, the restored `sys.stdout` /
`sys.stderr` are the saved streams, and a second call is a no-op returning
the same captured text and the same state. -/
theorem complete_output_idempotent (s : ResultState) (buf : String) (o e' : Stream)
    (hb : s.outputBuffer = some buf) (ho : s.stdout0 = some o)
    (he : s.stderr0 = some e') :
    ∃ s₁, complete_output s = some (buf, s₁)
      ∧ s₁.sysStdout = some o ∧ s₁.sysStderr = some e'
      ∧ complete_output s₁ = some (buf, s₁) := by
  refine ⟨{ s with sysStdout := some o, sysStderr := some e', stdout0 := none, stderr0 := none }, ?_, rfl, rfl, ?_⟩
  · simp [complete_output, restoreStreams, hb, ho, he]
  · simp [complete_output, restoreStreams, hb]

/-- Witness for `complete_output_idempotent` on a concrete started state. -/
theorem complete_output_idempotent_witness :
    complete_output sStarted = some ("hello", sDone)
  ∧ sDone.sysStdout = some (Stream.real 1) ∧ sDone.sysStderr = some (Stream.real 2)
  ∧ complete_output sDone = some ("hello", sDone) := by
  obtain ⟨s₁, h1, h2, h3, h4⟩ :=
    complete_output_idempotent sStarted "hello" (Stream.real 1) (Stream.real 2) rfl rfl rfl
  have hc : complete_output sStarted = some ("hello", sDone) := rfl
  rw [hc] at h1
  obtain ⟨-, rfl⟩ := Prod.mk.injEq .. ▸ Option.some.inj h1
  exact ⟨hc, h2, h3, h4⟩

/-- C10: on a freshly constructed result object `complete_output` raises
(`outputBuffer` is `None`); once a buffer exists it never fails, `startTest`
installs a buffer, and every successful callback preserves the existence of
the buffer — so after `startTest` the error branch is unreachable. -/
theorem complete_output_requires_startTest :
    (∀ o e, complete_output (initState o e) = none)
  ∧ (∀ s, s.outputBuffer.isSome → (complete_output s).isSome)
  ∧ (∀ s t s₁, step s (TestEvent.startTest t) = some s₁ → s₁.outputBuffer.isSome)
  ∧ (∀ s ev s₁, s.outputBuffer.isSome → step s ev = some s₁ →
      s₁.outputBuffer.isSome) := by
  have hbuf : ∀ s : ResultState, ∀ b, s.outputBuffer = some b →
      complete_output s = some (b, restoreStreams s) := by
    intro s b hb
    simp [complete_output, restoreStreams_outputBuffer, hb]
  refine ⟨?_, ?_, ?_, ?_⟩
  · intro o e
    simp [complete_output, initState, restoreStreams]
  · intro s h
    obtain ⟨b, hb⟩ := Option.isSome_iff_exists.mp h
    simp [hbuf s b hb]
  · intro s t s₁ h
    simp only [step, Option.some.injEq] at h
    subst h
    rfl
  · intro s ev s₁ h hstep
    obtain ⟨b, hb⟩ := Option.isSome_iff_exists.mp h
    cases ev with
    | startTest t =>
        simp only [step, Option.some.injEq] at hstep
        subst hstep; rfl
    | write t =>
        simp only [step, hb] at hstep
        obtain rfl := Option.some.inj hstep
        rfl
    | addSuccess t =>
        have := hbuf { s with pass_count := s.pass_count + 1 } b hb
        simp only [step, this] at hstep
        obtain rfl := Option.some.inj hstep
        simpa [restoreStreams_outputBuffer] using hb ▸ rfl
    | addError t ex =>
        have := hbuf { s with error_count := s.error_count + 1 } b hb
        simp only [step, this] at hstep
        obtain rfl := Option.some.inj hstep
        simpa [restoreStreams_outputBuffer] using hb ▸ rfl
    | addFailure t ex =>
        have := hbuf { s with fail_count := s.fail_count + 1 } b hb
        simp only [step, this] at hstep
        obtain rfl := Option.some.inj hstep
        simpa [restoreStreams_outputBuffer] using hb ▸ rfl
    | addSkip t r =>
        have := hbuf { s with skip_count := s.skip_count + 1 } b hb
        simp only [step, this] at hstep
        obtain rfl := Option.some.inj hstep
        simpa [restoreStreams_outputBuffer] using hb ▸ rfl
    | stopTest t =>
        have := hbuf s b hb
        simp only [step, this] at hstep
        obtain rfl := Option.some.inj hstep
        simp [restoreStreams_outputBuffer, hb]

/-- Witness for `complete_output_requires_startTest` at concrete inputs. -/
theorem complete_output_requires_startTest_witness :
    complete_output (initState (some (Stream.real 1)) (some (Stream.real 2))) = none :=
  complete_output_requires_startTest.1 (some (Stream.real 1)) (some (Stream.real 2))

lemma countStatus_append (st : TestStatus) (l l' : List TestCaseResult) :
    countStatus st (l ++ l') = countStatus st l + countStatus st l' := by
  simp [countStatus, List.filter_append]

lemma countStatus_partition (l : List TestCaseResult) :
    countStatus TestStatus.PASS l + countStatus TestStatus.FAIL l
      + countStatus TestStatus.ERROR l + countStatus TestStatus.SKIP l
      = l.length := by
  induction l with
  | nil => rfl
  | cons r rest ih =>
      cases hst : r.status <;>
        simp [countStatus, List.filter_cons, hst] at ih ⊢ <;> omega

lemma step_countsInv (s : ResultState) (ev : TestEvent) (s₁ : ResultState)
    (hstep : step s ev = some s₁) (h : countsInv s) : countsInv s₁ := by
  obtain ⟨c1, c2, c3, c4⟩ := h
  cases ev with
  | startTest t =>
      obtain ⟨h1, h2, h3, h4, h5⟩ := step_startTest_eq s t s₁ hstep
      exact ⟨by rw [h1, h5, c1], by rw [h2, h5, c2], by rw [h3, h5, c3], by rw [h4, h5, c4]⟩
  | write t =>
      obtain ⟨h1, h2, h3, h4, h5⟩ := step_write_eq s t s₁ hstep
      exact ⟨by rw [h1, h5, c1], by rw [h2, h5, c2], by rw [h3, h5, c3], by rw [h4, h5, c4]⟩
  | stopTest t =>
      obtain ⟨h1, h2, h3, h4, h5⟩ := step_stopTest_eq s t s₁ hstep
      exact ⟨by rw [h1, h5, c1], by rw [h2, h5, c2], by rw [h3, h5, c3], by rw [h4, h5, c4]⟩
  | addSuccess t =>
      obtain ⟨out, -, h1, h2, h3, h4, h5⟩ := step_addSuccess_eq s t s₁ hstep
      refine ⟨?_, ?_, ?_, ?_⟩ <;>
        simp [h1, h2, h3, h4, h5, c1, c2, c3, c4, countStatus_append, countStatus]
  | addError t ex =>
      obtain ⟨out, -, h1, h2, h3, h4, h5⟩ := step_addError_eq s t ex s₁ hstep
      refine ⟨?_, ?_, ?_, ?_⟩ <;>
        simp [h1, h2, h3, h4, h5, c1, c2, c3, c4, countStatus_append, countStatus]
  | addFailure t ex =>
      obtain ⟨out, -, h1, h2, h3, h4, h5⟩ := step_addFailure_eq s t ex s₁ hstep
      refine ⟨?_, ?_, ?_, ?_⟩ <;>
        simp [h1, h2, h3, h4, h5, c1, c2, c3, c4, countStatus_append, countStatus]
  | addSkip t r =>
      obtain ⟨out, -, h1, h2, h3, h4, h5⟩ := step_addSkip_eq s t r s₁ hstep
      refine ⟨?_, ?_, ?_, ?_⟩ <;>
        simp [h1, h2, h3, h4, h5, c1, c2, c3, c4, countStatus_append, countStatus]

lemma runEvents_countsInv (events : List TestEvent) :
    ∀ s s₁, runEvents events s = some s₁ → countsInv s → countsInv s₁ := by
  induction events with
  | nil =>
      intro s s₁ h hinv
      obtain rfl := Option.some.inj h
      exact hinv
  | cons ev rest ih =>
      intro s s₁ h hinv
      simp only [runEvents] at h
      cases hstep : step s ev with
      | none => rw [hstep] at h; cases h
      | some s' =>
          rw [hstep] at h
          exact ih s' s₁ h (step_countsInv s ev s' hstep hinv)

/-- C3: for every run (every callback sequence the framework can deliver
that does not raise), each counter equals the number of recorded results
with the corresponding status, and `total_count` equals the length of the
`result` list. -/
theorem run_counts_invariant (events : List TestEvent) (o e : Option Stream)
    (s : ResultState) (h : runEvents events (initState o e) = some s) :
    s.pass_count = countStatus TestStatus.PASS s.result
  ∧ s.fail_count = countStatus TestStatus.FAIL s.result
  ∧ s.error_count = countStatus TestStatus.ERROR s.result
  ∧ s.skip_count = countStatus TestStatus.SKIP s.result
  ∧ s.total_count = s.result.length := by
  have hinit : countsInv (initState o e) := ⟨rfl, rfl, rfl, rfl⟩
  obtain ⟨c1, c2, c3, c4⟩ := runEvents_countsInv events _ s h hinit
  refine ⟨c1, c2, c3, c4, ?_⟩
  rw [ResultState.total_count, c1, c2, c3, c4]
  exact countStatus_partition s.result

/-- Witness for `run_counts_invariant` on the concrete run `eventsW`. -/
theorem run_counts_invariant_witness :
    runEvents eventsW (initState (some (Stream.real 1)) (some (Stream.real 2)))
        = some stateW
  ∧ (stateW.pass_count = countStatus TestStatus.PASS stateW.result
     ∧ stateW.fail_count = countStatus TestStatus.FAIL stateW.result
     ∧ stateW.error_count = countStatus TestStatus.ERROR stateW.result
     ∧ stateW.skip_count = countStatus TestStatus.SKIP stateW.result
     ∧ stateW.total_count = stateW.result.length) :=
  ⟨by decide, run_counts_invariant eventsW (some (Stream.real 1)) (some (Stream.real 2))
    stateW (by decide)⟩

lemma errorConsistent_cons (ev : TestEvent) (events : List TestEvent)
    (r : TestCaseResult) (h : errorConsistent events r) :
    errorConsistent (ev :: events) r := by
  obtain ⟨h1, h2, h3, h4⟩ := h
  exact ⟨h1, fun hs => List.mem_cons_of_mem _ (h2 hs),
    fun hs => List.mem_cons_of_mem _ (h3 hs), fun hs => List.mem_cons_of_mem _ (h4 hs)⟩

lemma runEvents_errorConsistent (events : List TestEvent) :
    ∀ s s₁, runEvents events s = some s₁ →
      ∀ r ∈ s₁.result, r ∈ s.result ∨ errorConsistent events r := by
  induction events with
  | nil =>
      intro s s₁ h r hr
      obtain rfl := Option.some.inj h
      exact Or.inl hr
  | cons ev rest ih =>
      intro s s₁ h r hr
      simp only [runEvents] at h
      cases hstep : step s ev with
      | none => rw [hstep] at h; cases h
      | some s' =>
          rw [hstep] at h
          rcases ih s' s₁ h r hr with hmem | hec
          · cases ev with
            | startTest t =>
                obtain ⟨-, -, -, -, h5⟩ := step_startTest_eq s t s' hstep
                exact Or.inl (h5 ▸ hmem)
            | write t =>
                obtain ⟨-, -, -, -, h5⟩ := step_write_eq s t s' hstep
                exact Or.inl (h5 ▸ hmem)
            | stopTest t =>
                obtain ⟨-, -, -, -, h5⟩ := step_stopTest_eq s t s' hstep
                exact Or.inl (h5 ▸ hmem)
            | addSuccess t =>
                obtain ⟨out, -, -, -, -, -, h5⟩ := step_addSuccess_eq s t s' hstep
                rw [h5, List.mem_append] at hmem
                rcases hmem with hmem | hmem
                · exact Or.inl hmem
                · obtain rfl := List.mem_singleton.mp hmem
                  exact Or.inr ⟨fun _ => rfl, by simp, by simp, by simp⟩
            | addError t ex =>
                obtain ⟨out, -, -, -, -, -, h5⟩ := step_addError_eq s t ex s' hstep
                rw [h5, List.mem_append] at hmem
                rcases hmem with hmem | hmem
                · exact Or.inl hmem
                · obtain rfl := List.mem_singleton.mp hmem
                  exact Or.inr ⟨by simp, fun _ => List.mem_cons_self _ _, by simp, by simp⟩
            | addFailure t ex =>
                obtain ⟨out, -, -, -, -, -, h5⟩ := step_addFailure_eq s t ex s' hstep
                rw [h5, List.mem_append] at hmem
                rcases hmem with hmem | hmem
                · exact Or.inl hmem
                · obtain rfl := List.mem_singleton.mp hmem
                  exact Or.inr ⟨by simp, by simp, fun _ => List.mem_cons_self _ _, by simp⟩
            | addSkip t reason =>
                obtain ⟨out, -, -, -, -, -, h5⟩ := step_addSkip_eq s t reason s' hstep
                rw [h5, List.mem_append] at hmem
                rcases hmem with hmem | hmem
                · exact Or.inl hmem
                · obtain rfl := List.mem_singleton.mp hmem
                  exact Or.inr ⟨by simp, by simp, by simp, fun _ => List.mem_cons_self _ _⟩
          · exact Or.inr (errorConsistent_cons ev rest r hec)

/-- C7: in every run, every recorded `TestCaseResult` has an `error` field
consistent with its status: empty for `PASS`, the framework-supplied
exception text (payload of the corresponding `addError` / `addFailure`
callback) for `ERROR` / `FAIL`, and the supplied skip reason for `SKIP`. -/
theorem result_error_consistent (events : List TestEvent) (o e : Option Stream)
    (s : ResultState) (h : runEvents events (initState o e) = some s) :
    ∀ r ∈ s.result,
      (r.status = TestStatus.PASS → r.error = "")
    ∧ (r.status = TestStatus.ERROR → TestEvent.addError r.test_case r.error ∈ events)
    ∧ (r.status = TestStatus.FAIL → TestEvent.addFailure r.test_case r.error ∈ events)
    ∧ (r.status = TestStatus.SKIP → TestEvent.addSkip r.test_case r.error ∈ events) := by
  intro r hr
  rcases runEvents_errorConsistent events _ s h r hr with hmem | hec
  · cases hmem
  · exact hec

/-- Witness for `result_error_consistent` on the concrete run `eventsE`. -/
theorem result_error_consistent_witness :
    runEvents eventsE (initState (some (Stream.real 1)) (some (Stream.real 2)))
        = some stateE
  ∧ ((entryE.status = TestStatus.PASS → entryE.error = "")
     ∧ (entryE.status = TestStatus.ERROR →
          TestEvent.addError entryE.test_case entryE.error ∈ eventsE)
     ∧ (entryE.status = TestStatus.FAIL →
          TestEvent.addFailure entryE.test_case entryE.error ∈ eventsE)
     ∧ (entryE.status = TestStatus.SKIP →
          TestEvent.addSkip entryE.test_case entryE.error ∈ eventsE)) :=
  ⟨by decide, result_error_consistent eventsE (some (Stream.real 1)) (some (Stream.real 2))
    stateE (by decide) entryE (by decide)⟩

/-- C1 (code defect): `TestGroupReport.total_count` sums `fail_count` twice
and never adds `error_count`, so for the report of a run with a single
`ERROR` outcome the group's `total_count` is `0` even though the group holds
one test case and `pass + fail + error + skip = 1`. -/
theorem group_total_count_defect :
    (∀ g : TestGroupReport,
      g.total_count = g.pass_count + g.fail_count + g.fail_count + g.skip_count)
  ∧ (generate_report_table [entryE]).map
      (fun g => (g.total_count,
        g.pass_count + g.fail_count + g.error_count + g.skip_count,
        g.test_cases.length)) = [(0, 1, 1)] :=
  ⟨fun _ => rfl, by decide⟩

/-- C9: as long as the built-in default template is readable, `_load_template`
never raises: with no template argument it returns the default silently, with
an unreadable or missing path it prints the diagnostic and returns the
default, and for every argument whatsoever it returns normally. -/
theorem load_template_never_raises (fs : String → Option String) (d : String)
    (hd : fs DEFAULT_TEMPLATE = some d) :
    _load_template fs none = Except.ok (d, false)
  ∧ (∀ p, p ≠ "" → fs p = none → _load_template fs (some p) = Except.ok (d, true))
  ∧ (∀ t, ∃ r, _load_template fs t = Except.ok r) := by
  refine ⟨?_, ?_, ?_⟩
  · simp [_load_template, hd]
  · intro p hp hfs
    simp [_load_template, hp, hfs, hd]
  · intro t
    cases t with
    | none => exact ⟨(d, false), by simp [_load_template, hd]⟩
    | some p =>
      by_cases hp : p = ""
      · exact ⟨(d, false), by simp [_load_template, hp, hd]⟩
      · cases hfs : fs p with
        | none => exact ⟨(d, true), by simp [_load_template, hp, hfs, hd]⟩
        | some c =>
          by_cases hc : c = ""
          · exact ⟨(d, false), by simp [_load_template, hp, hfs, hc, hd]⟩
          · exact ⟨(c, false), by simp [_load_template, hp, hfs, hc]⟩

/-- A concrete filesystem holding only the default template. -/
def fsW : String → Option String :=
  fun p => if p = DEFAULT_TEMPLATE then some "DEFAULT" else none

/-- Witness for `load_template_never_raises` on the concrete filesystem
`fsW` and the missing custom path `custom.html`. -/
theorem load_template_never_raises_witness :
    fsW DEFAULT_TEMPLATE = some "DEFAULT"
  ∧ _load_template fsW none = Except.ok ("DEFAULT", false)
  ∧ _load_template fsW (some "custom.html") = Except.ok ("DEFAULT", true) :=
  ⟨by decide,
   (load_template_never_raises fsW "DEFAULT" (by decide)).1,
   (load_template_never_raises fsW "DEFAULT" (by decide)).2.1 "custom.html"
     (by decide) (by decide)⟩

/-- C8 counterexample: `clsD` has a docstring (`"\nSecond line"`), yet the
generated group description is the bare qualified name `"mod.D"`, not
`"{qualifiedClassName}: {firstLineOfClassDocstring}"` — the claim as stated
fails when a docstring's first line is empty. -/
theorem group_desc_claim_counterexample :
    clsD.doc = some "\nSecond line"
  ∧ (generate_report_table resultsD).map (fun g => g.desc) = ["mod.D"]
  ∧ ("mod.D" : String) ≠ qualifiedName clsD ++ ": " ++ firstLine "\nSecond line" := by
  refine ⟨rfl, by decide, by decide⟩

lemma enum_map_comp_snd {α β : Type} (l : List α) (f : α → β) :
    l.enum.map (fun p => f p.2) = l.map f := by
  have h := List.enum_map_snd l
  calc l.enum.map (fun p => f p.2) = (l.enum.map Prod.snd).map f := by
        rw [List.map_map]; rfl
    _ = l.map f := by rw [h]

lemma descOf_eq_groupDescSpec (cls : TestClass) : descOf cls = groupDescSpec cls := by
  unfold descOf groupDescSpec
  cases hdoc : cls.doc with
  | none => simp
  | some d =>
      by_cases hd : d = ""
      · subst hd
        simp [firstLine]
      · simp only [hd, if_false]

/-- C8 amended: a group's description is
`"{qualifiedClassName}: {firstLineOfClassDocstring}"` exactly when the class
has a docstring whose first line is nonempty, and the bare qualified class
name otherwise; the qualified name omits the module prefix exactly when the
class's module is `"__main__"`. -/
theorem group_desc_format (result : List TestCaseResult) :
    (generate_report_table result).map (fun g => g.desc)
      = (_sort_result result).map (fun p => groupDescSpec p.1)
  ∧ (∀ cls : TestClass,
      (cls.module = "__main__" → qualifiedName cls = cls.name)
    ∧ (cls.module ≠ "__main__" → qualifiedName cls = cls.module ++ "." ++ cls.name)) := by
  constructor
  · rw [← enum_map_comp_snd (_sort_result result)
      (fun q : TestClass × List TestCaseResult => groupDescSpec q.1)]
    simp only [generate_report_table, List.map_map]
    apply List.map_congr_left
    intro p hp
    show descOf p.2.1 = groupDescSpec p.2.1
    exact descOf_eq_groupDescSpec p.2.1
  · intro cls
    constructor
    · intro h; simp [qualifiedName, h]
    · intro h; simp [qualifiedName, h]

lemma rmapFind_map (classes : List TestClass) (f : TestClass → List TestCaseResult)
    (c : TestClass) :
    rmapFind (classes.map (fun x => (x, f x))) c
      = if c ∈ classes then some (f c) else none := by
  induction classes with
  | nil => simp [rmapFind]
  | cons x rest ih =>
      simp only [List.map_cons, rmapFind]
      by_cases hx : x = c
      · subst hx; simp
      · rw [if_neg hx, ih]
        by_cases hc : c ∈ rest
        · simp [hc, List.mem_cons]
        · simp [hc, List.mem_cons, Ne.symm hx]

lemma rmapAppend_map (classes : List TestClass) (f : TestClass → List TestCaseResult)
    (d : TestClass) (r : TestCaseResult) (hnd : classes.Nodup) :
    rmapAppend (classes.map (fun x => (x, f x))) d r
      = classes.map (fun x => (x, if x = d then f x ++ [r] else f x)) := by
  induction classes with
  | nil => rfl
  | cons x rest ih =>
      simp only [List.map_cons, rmapAppend]
      by_cases hx : x = d
      · rw [if_pos hx, if_pos hx]
        congr 1
        apply List.map_congr_left
        intro y hy
        have hyx : y ≠ x := fun h => (List.nodup_cons.mp hnd).1 (h ▸ hy)
        rw [if_neg (hx ▸ hyx)]
      · rw [if_neg hx, if_neg hx, ih (List.nodup_cons.mp hnd).2]

lemma classesAfter_cons (classes : List TestClass) (r : TestCaseResult)
    (rest : List TestCaseResult) :
    classesAfter classes (r :: rest)
      = classesAfter
          (if r.test_case.cls ∈ classes then classes else classes ++ [r.test_case.cls])
          rest := rfl

lemma classesAfter_append (acc : List TestClass) (l1 l2 : List TestCaseResult) :
    classesAfter acc (l1 ++ l2) = classesAfter (classesAfter acc l1) l2 := by
  simp [classesAfter, List.foldl_append]

lemma sortLoop_spec (l : List TestCaseResult) :
    ∀ (classes : List TestClass) (processed : List TestCaseResult),
    classes.Nodup → (∀ r ∈ processed, r.test_case.cls ∈ classes) →
    sortLoop l (classes.map (fun c => (c, processed.filter (fun q => q.test_case.cls = c))))
        classes
      = ((classesAfter classes l).map
          (fun c => (c, (processed ++ l).filter (fun q => q.test_case.cls = c))),
         classesAfter classes l) := by
  induction l with
  | nil =>
      intro classes processed h1 h2
      simp [sortLoop, classesAfter]
  | cons r rest ih =>
      intro classes processed hnd hmem
      simp only [sortLoop]
      rw [rmapFind_map]
      by_cases hc : r.test_case.cls ∈ classes
      · rw [if_pos hc]
        show sortLoop rest
            (rmapAppend (classes.map fun c =>
              (c, processed.filter (fun q => q.test_case.cls = c))) r.test_case.cls r)
            classes = _
        rw [rmapAppend_map classes _ _ r hnd]
        have hmap : classes.map (fun x =>
              (x, if x = r.test_case.cls
                then processed.filter (fun q => q.test_case.cls = x) ++ [r]
                else processed.filter (fun q => q.test_case.cls = x)))
            = classes.map (fun x =>
                (x, (processed ++ [r]).filter (fun q => q.test_case.cls = x))) := by
          apply List.map_congr_left
          intro x hx
          by_cases hxc : x = r.test_case.cls
          · subst hxc
            simp [List.filter_append]
          · have : ¬(r.test_case.cls = x) := fun h => hxc h.symm
            simp [hxc, List.filter_append, this]
        rw [hmap]
        rw [ih classes (processed ++ [r]) hnd
          (by intro q hq
              rcases List.mem_append.mp hq with h | h
              · exact hmem q h
              · obtain rfl := List.mem_singleton.mp h
                exact hc)]
        rw [classesAfter_cons, if_pos hc, List.append_assoc]
        rfl
      · rw [if_neg hc]
        show sortLoop rest
            ((classes.map fun c =>
              (c, processed.filter (fun q => q.test_case.cls = c)))
              ++ [(r.test_case.cls, [r])])
            (classes ++ [r.test_case.cls]) = _
        have hmap : (classes.map fun c =>
              (c, processed.filter (fun q => q.test_case.cls = c)))
              ++ [(r.test_case.cls, [r])]
            = (classes ++ [r.test_case.cls]).map (fun c =>
                (c, (processed ++ [r]).filter (fun q => q.test_case.cls = c))) := by
          rw [List.map_append]
          congr 1
          · apply List.map_congr_left
            intro x hx
            have hne : ¬(r.test_case.cls = x) := fun h => hc (h ▸ hx)
            simp [List.filter_append, hne]
          · have hnone : processed.filter
                (fun q => q.test_case.cls = r.test_case.cls) = [] := by
              rw [List.filter_eq_nil_iff]
              intro q hq
              simp only [decide_eq_true_eq]
              intro hq2
              exact hc (hq2 ▸ hmem q hq)
            simp [List.filter_append, hnone]
        rw [hmap]
        rw [ih (classes ++ [r.test_case.cls]) (processed ++ [r])
          (by simp [List.nodup_append, hnd, hc])
          (by intro q hq
              rcases List.mem_append.mp hq with h | h
              · exact List.mem_append_left _ (hmem q h)
              · obtain rfl := List.mem_singleton.mp h
                exact List.mem_append_right _ (List.mem_singleton_self _))]
        rw [classesAfter_cons, if_neg hc, List.append_assoc]
        rfl

/-- What `_sort_result` computes: one group per first-seen class, each group
being the order-preserving filter of the input by that class. -/
lemma sort_result_eq (l : List TestCaseResult) :
    _sort_result l = (classesAfter [] l).map
      (fun c => (c, l.filter (fun r => r.test_case.cls = c))) := by
  unfold _sort_result
  have h := sortLoop_spec l [] [] List.nodup_nil (by intro r hr; cases hr)
  simp only [List.map_nil, List.filter_nil, List.nil_append] at h
  rw [h]
  apply List.map_congr_left
  intro c hc
  rw [rmapFind_map]
  simp [hc]

lemma mem_classesAfter_mono (l : List TestCaseResult) :
    ∀ (acc : List TestClass) (a : TestClass), a ∈ acc → a ∈ classesAfter acc l := by
  induction l with
  | nil => intro acc a h; exact h
  | cons r rest ih =>
      intro acc a h
      rw [classesAfter_cons]
      by_cases hc : r.test_case.cls ∈ acc
      · rw [if_pos hc]; exact ih acc a h
      · rw [if_neg hc]; exact ih _ a (List.mem_append_left _ h)

lemma mem_classesAfter_iff (l : List TestCaseResult) :
    ∀ (acc : List TestClass) (c : TestClass),
      c ∈ classesAfter acc l ↔ c ∈ acc ∨ ∃ r ∈ l, r.test_case.cls = c := by
  induction l with
  | nil => intro acc c; simp [classesAfter]
  | cons r rest ih =>
      intro acc c
      rw [classesAfter_cons]
      by_cases hc : r.test_case.cls ∈ acc
      · rw [if_pos hc, ih]
        constructor
        · rintro (h | h)
          · exact Or.inl h
          · exact Or.inr (by obtain ⟨q, hq, hq2⟩ := h; exact ⟨q, List.mem_cons_of_mem _ hq, hq2⟩)
        · rintro (h | ⟨q, hq, hq2⟩)
          · exact Or.inl h
          · rcases List.mem_cons.mp hq with rfl | hq
            · exact Or.inl (hq2 ▸ hc)
            · exact Or.inr ⟨q, hq, hq2⟩
      · rw [if_neg hc, ih]
        constructor
        · rintro (h | h)
          · rcases List.mem_append.mp h with h | h
            · exact Or.inl h
            · obtain rfl := List.mem_singleton.mp h
              exact Or.inr ⟨r, List.mem_cons_self _ _, rfl⟩
          · exact Or.inr (by obtain ⟨q, hq, hq2⟩ := h; exact ⟨q, List.mem_cons_of_mem _ hq, hq2⟩)
        · rintro (h | ⟨q, hq, hq2⟩)
          · exact Or.inl (List.mem_append_left _ h)
          · rcases List.mem_cons.mp hq with rfl | hq
            · exact Or.inl (List.mem_append_right _ (List.mem_singleton.mpr hq2.symm))
            · exact Or.inr ⟨q, hq, hq2⟩

lemma classesAfter_nodup (l : List TestCaseResult) :
    ∀ (acc : List TestClass), acc.Nodup → (classesAfter acc l).Nodup := by
  induction l with
  | nil => intro acc h; exact h
  | cons r rest ih =>
      intro acc h
      rw [classesAfter_cons]
      by_cases hc : r.test_case.cls ∈ acc
      · rw [if_pos hc]; exact ih acc h
      · rw [if_neg hc]
        exact ih _ (by simp [List.nodup_append, h, hc])

lemma firstIdx_lt_length (l : List TestCaseResult) (c : TestClass)
    (h : ∃ r ∈ l, r.test_case.cls = c) : firstIdx l c < l.length := by
  unfold firstIdx
  apply List.findIdx_lt_length_of_exists
  obtain ⟨r, hr, hc⟩ := h
  exact ⟨r, hr, by simp [hc]⟩

lemma firstIdx_append_left (l l' : List TestCaseResult) (c : TestClass)
    (h : ∃ r ∈ l, r.test_case.cls = c) : firstIdx (l ++ l') c = firstIdx l c := by
  induction l with
  | nil => obtain ⟨r, hr, -⟩ := h; cases hr
  | cons x rest ih =>
      simp only [List.cons_append, firstIdx, List.findIdx_cons]
      by_cases hx : x.test_case.cls = c
      · simp [hx]
      · simp only [hx, decide_False, cond_false]
        have : firstIdx (rest ++ l') c = firstIdx rest c := by
          apply ih
          obtain ⟨r, hr, hc⟩ := h
          rcases List.mem_cons.mp hr with rfl | hr
          · exact absurd hc hx
          · exact ⟨r, hr, hc⟩
        simp only [firstIdx] at this
        rw [this]

lemma firstIdx_append_right (l l' : List TestCaseResult) (c : TestClass)
    (h : ∀ r ∈ l, r.test_case.cls ≠ c) :
    firstIdx (l ++ l') c = l.length + firstIdx l' c := by
  induction l with
  | nil => simp [firstIdx]
  | cons x rest ih =>
      simp only [List.cons_append, firstIdx, List.findIdx_cons]
      have hx : x.test_case.cls ≠ c := h x (List.mem_cons_self _ _)
      simp only [hx, decide_False, cond_false]
      have := ih (fun r hr => h r (List.mem_cons_of_mem _ hr))
      simp only [firstIdx] at this
      rw [this, List.length_cons]
      omega

lemma classesAfter_pairwise_firstIdx (l : List TestCaseResult) :
    (classesAfter [] l).Pairwise (fun a b => firstIdx l a < firstIdx l b) := by
  induction l using List.reverseRecOn with
  | nil => simp [classesAfter]
  | append_singleton l r ih =>
      rw [classesAfter_append]
      have hmemex : ∀ a ∈ classesAfter [] l, ∃ q ∈ l, q.test_case.cls = a := by
        intro a ha
        rcases (mem_classesAfter_iff l [] a).mp ha with h | h
        · cases h
        · exact h
      have htrans : (classesAfter [] l).Pairwise
          (fun a b => firstIdx (l ++ [r]) a < firstIdx (l ++ [r]) b) := by
        apply List.Pairwise.imp_of_mem ?_ ih
        intro a b ha hb hlt
        rw [firstIdx_append_left l [r] a (hmemex a ha),
          firstIdx_append_left l [r] b (hmemex b hb)]
        exact hlt
      show (classesAfter (classesAfter [] l) [r]).Pairwise _
      rw [show classesAfter (classesAfter [] l) [r]
          = if r.test_case.cls ∈ classesAfter [] l then classesAfter [] l
            else classesAfter [] l ++ [r.test_case.cls] from rfl]
      by_cases hc : r.test_case.cls ∈ classesAfter [] l
      · rw [if_pos hc]; exact htrans
      · rw [if_neg hc]
        rw [List.pairwise_append]
        refine ⟨htrans, List.pairwise_singleton _ _, ?_⟩
        intro a ha b hb
        obtain rfl := List.mem_singleton.mp hb
        have hnotin : ∀ q ∈ l, q.test_case.cls ≠ r.test_case.cls := by
          intro q hq hqe
          exact hc ((mem_classesAfter_iff l [] _).mpr (Or.inr ⟨q, hq, hqe⟩))
        rw [firstIdx_append_left l [r] a (hmemex a ha),
          firstIdx_append_right l [r] _ hnotin]
        have h1 : firstIdx l a < l.length := firstIdx_lt_length l a (hmemex a ha)
        have h2 : firstIdx [r] r.test_case.cls = 0 := by
          simp [firstIdx, List.findIdx_cons]
        omega

/-- C4: `_sort_result` partitions the flat, completion-ordered result list:
each group's sub-list is the order-preserving filter of the input by the
group's class, no class heads two groups, every outcome's class heads some
group (so every outcome lands in exactly one group), and groups are ordered
by the first occurrence of their class in the input. -/
theorem sort_result_partition (l : List TestCaseResult) :
    (∀ g ∈ _sort_result l, g.2 = l.filter (fun r => r.test_case.cls = g.1))
  ∧ ((_sort_result l).map Prod.fst).Nodup
  ∧ (∀ r ∈ l, r.test_case.cls ∈ (_sort_result l).map Prod.fst)
  ∧ (_sort_result l).Pairwise (fun g h => firstIdx l g.1 < firstIdx l h.1) := by
  have hfst : (_sort_result l).map Prod.fst = classesAfter [] l := by
    rw [sort_result_eq, List.map_map]
    exact List.map_id _
  refine ⟨?_, ?_, ?_, ?_⟩
  · intro g hg
    rw [sort_result_eq] at hg
    obtain ⟨c, -, rfl⟩ := List.mem_map.mp hg
    rfl
  · rw [hfst]
    exact classesAfter_nodup l [] List.nodup_nil
  · intro r hr
    rw [hfst]
    exact (mem_classesAfter_iff l [] _).mpr (Or.inr ⟨r, hr, rfl⟩)
  · rw [sort_result_eq, List.pairwise_map]
    exact classesAfter_pairwise_firstIdx l

/-- Witness for `sort_result_partition` on the concrete run `resultsW`. -/
theorem sort_result_partition_witness :
    (gC ∈ _sort_result resultsW
      ∧ gC.2 = resultsW.filter (fun r => r.test_case.cls = gC.1))
  ∧ ((_sort_result resultsW).map Prod.fst).Nodup
  ∧ ((⟨TestStatus.PASS, tcA, "", ""⟩ : TestCaseResult) ∈ resultsW
      ∧ (⟨TestStatus.PASS, tcA, "", ""⟩ : TestCaseResult).test_case.cls
          ∈ (_sort_result resultsW).map Prod.fst)
  ∧ (_sort_result resultsW).Pairwise
      (fun g h => firstIdx resultsW g.1 < firstIdx resultsW h.1) :=
  ⟨⟨by decide, (sort_result_partition resultsW).1 gC (by decide)⟩,
   (sort_result_partition resultsW).2.1,
   ⟨by decide, (sort_result_partition resultsW).2.2.1 _ (by decide)⟩,
   (sort_result_partition resultsW).2.2.2⟩

/-- Witness for `group_desc_format` on the concrete run `resultsD`. -/
theorem group_desc_format_witness :
    (generate_report_table resultsD).map (fun g => g.desc)
        = (_sort_result resultsD).map (fun p => groupDescSpec p.1)
  ∧ (clsD.module ≠ "__main__"
      ∧ qualifiedName clsD = clsD.module ++ "." ++ clsD.name) :=
  ⟨(group_desc_format resultsD).1,
   by decide,
   ((group_desc_format resultsD).2 clsD).2 (by decide)⟩

lemma digitChar_ne_dot (n : Nat) : digitChar n ≠ '.' := by
  unfold digitChar
  split <;> decide

lemma digitVal_digitChar (d : Nat) (h : d < 10) : digitVal (digitChar d) = d := by
  interval_cases d <;> decide

lemma decDigitsAux_ne_dot (fuel : Nat) :
    ∀ n, ∀ c ∈ decDigitsAux fuel n, c ≠ '.' := by
  induction fuel with
  | zero => intro n c hc; cases hc
  | succ fuel ih =>
      intro n c hc
      rw [decDigitsAux] at hc
      by_cases h : n < 10
      · rw [if_pos h] at hc
        obtain rfl := List.mem_singleton.mp hc
        exact digitChar_ne_dot n
      · rw [if_neg h] at hc
        rcases List.mem_append.mp hc with h1 | h1
        · exact ih (n / 10) c h1
        · obtain rfl := List.mem_singleton.mp h1
          exact digitChar_ne_dot _

lemma decDigits_ne_dot (n : Nat) : ∀ c ∈ decDigits n, c ≠ '.' :=
  decDigitsAux_ne_dot (n + 1) n

lemma decVal_concat (l : List Char) (c : Char) :
    decVal (l ++ [c]) = decVal l * 10 + digitVal c := by
  simp [decVal, List.foldl_append]

lemma decVal_decDigitsAux (fuel : Nat) :
    ∀ n, n < fuel → decVal (decDigitsAux fuel n) = n := by
  induction fuel with
  | zero => intro n h; omega
  | succ fuel ih =>
      intro n h
      rw [decDigitsAux]
      by_cases h10 : n < 10
      · rw [if_pos h10]
        simp [decVal, digitVal_digitChar n h10]
      · rw [if_neg h10, decVal_concat]
        have hdiv : n / 10 < fuel := by omega
        rw [ih (n / 10) hdiv, digitVal_digitChar _ (Nat.mod_lt n (by omega))]
        omega

lemma decDigits_inj (m n : Nat) (h : decDigits m = decDigits n) : m = n := by
  have h1 := decVal_decDigitsAux (m + 1) m (Nat.lt_succ_self m)
  have h2 := decVal_decDigitsAux (n + 1) n (Nat.lt_succ_self n)
  unfold decDigits at h
  rw [← h1, ← h2, h]

lemma append_dot_inj (a1 : List Char) :
    ∀ (a2 b1 b2 : List Char), (∀ c ∈ a1, c ≠ '.') → (∀ c ∈ a2, c ≠ '.') →
    a1 ++ '.' :: b1 = a2 ++ '.' :: b2 → a1 = a2 ∧ b1 = b2 := by
  induction a1 with
  | nil =>
      intro a2 b1 b2 h1 h2 heq
      cases a2 with
      | nil => simpa using heq
      | cons x rest =>
          simp only [List.nil_append, List.cons_append, List.cons.injEq] at heq
          exact absurd heq.1.symm (h2 x (List.mem_cons_self _ _))
  | cons x rest ih =>
      intro a2 b1 b2 h1 h2 heq
      cases a2 with
      | nil =>
          simp only [List.nil_append, List.cons_append, List.cons.injEq] at heq
          exact absurd heq.1 (h1 x (List.mem_cons_self _ _))
      | cons y rest2 =>
          simp only [List.cons_append, List.cons.injEq] at heq
          obtain ⟨rfl, heq2⟩ := heq
          obtain ⟨ha, hb⟩ := ih rest2 b1 b2
            (fun c hc => h1 c (List.mem_cons_of_mem _ hc))
            (fun c hc => h2 c (List.mem_cons_of_mem _ hc)) heq2
          exact ⟨by rw [ha], hb⟩

lemma statusCode_data (st : TestStatus) : ∃ c, (statusCode st).data = [c] := by
  cases st with
  | PASS => exact ⟨'p', rfl⟩
  | FAIL => exact ⟨'f', rfl⟩
  | ERROR => exact ⟨'e', rfl⟩
  | SKIP => exact ⟨'s', rfl⟩

/-- The display id embeds its group and in-group indices injectively. -/
lemma test_case_id_inj (st1 st2 : TestStatus) (c1 t1 c2 t2 : Nat)
    (h : statusCode st1 ++ "t" ++ natStr (c1 + 1) ++ "." ++ natStr (t1 + 1)
       = statusCode st2 ++ "t" ++ natStr (c2 + 1) ++ "." ++ natStr (t2 + 1)) :
    c1 = c2 ∧ t1 = t2 := by
  have hd := congrArg String.data h
  obtain ⟨ch1, e1⟩ := statusCode_data st1
  obtain ⟨ch2, e2⟩ := statusCode_data st2
  have ht : ("t" : String).data = ['t'] := rfl
  have hdot : ("." : String).data = ['.'] := rfl
  simp only [String.data_append, e1, e2, ht, hdot, natStr,
    List.append_assoc, List.singleton_append, List.cons.injEq] at hd
  simp only [List.cons_append, List.nil_append, List.cons.injEq, true_and] at hd
  obtain ⟨-, hd⟩ := hd
  obtain ⟨ha, hb⟩ := append_dot_inj _ _ _ _
    (decDigits_ne_dot (c1 + 1)) (decDigits_ne_dot (c2 + 1)) hd
  exact ⟨Nat.succ_injective (decDigits_inj _ _ ha),
    Nat.succ_injective (decDigits_inj _ _ hb)⟩

lemma tcr_tid (cid tid : Nat) (r : TestCaseResult) :
    (generate_test_case_report cid tid r).tid
      = statusCode r.status ++ "t" ++ natStr (cid + 1) ++ "." ++ natStr (tid + 1) := rfl

lemma enum_pairwise_fst_lt {α : Type} (l : List α) :
    l.enum.Pairwise (fun a b => a.1 < b.1) := by
  have h := List.pairwise_lt_range l.length
  rw [← List.enum_map_fst l] at h
  exact List.pairwise_map.mp h

/-- C5: across the whole generated report, no two test-case entries share
the same display id (`tid`): the flattened list of all ids has no
duplicate. -/
theorem report_tids_nodup (result : List TestCaseResult) :
    (((generate_report_table result).map
      (fun g => g.test_cases.map (fun t => t.tid))).flatten).Nodup := by
  rw [List.nodup_flatten]
  constructor
  · intro inner hinner
    simp only [generate_report_table, List.map_map] at hinner
    obtain ⟨p, hp, rfl⟩ := List.mem_map.mp hinner
    show ((p.2.2.enum.map
      (fun q => generate_test_case_report p.1 q.1 q.2)).map (fun t => t.tid)).Nodup
    rw [List.map_map]
    unfold List.Nodup
    rw [List.pairwise_map]
    apply (enum_pairwise_fst_lt p.2.2).imp
    intro a b hlt heq
    simp only [Function.comp_apply, tcr_tid] at heq
    exact absurd (test_case_id_inj _ _ _ _ _ _ heq).2 (Nat.ne_of_lt hlt)
  · simp only [generate_report_table, List.map_map]
    rw [List.pairwise_map]
    apply (enum_pairwise_fst_lt (_sort_result result)).imp
    intro a b hlt x hxa hxb
    have hxa' : x ∈ (a.2.2.enum.map
        (fun q => generate_test_case_report a.1 q.1 q.2)).map (fun t => t.tid) := hxa
    have hxb' : x ∈ (b.2.2.enum.map
        (fun q => generate_test_case_report b.1 q.1 q.2)).map (fun t => t.tid) := hxb
    rw [List.map_map] at hxa' hxb'
    obtain ⟨ta, hta, rfl⟩ := List.mem_map.mp hxa'
    obtain ⟨tb, htb, heq⟩ := List.mem_map.mp hxb'
    simp only [Function.comp_apply, tcr_tid] at heq
    exact absurd (test_case_id_inj _ _ _ _ _ _ heq).1 (Nat.ne_of_lt hlt).symm

lemma get?_map_opt {α β : Type} (f : α → β) (l : List α) (n : Nat) :
    (l.map f).get? n = (l.get? n).map f := by
  rw [List.get?_eq_getElem?, List.get?_eq_getElem?, List.getElem?_map]

lemma get?_enum {α : Type} (l : List α) (i : Nat) :
    l.enum.get? i = (l.get? i).map (fun a => (i, a)) := by
  rw [List.get?_eq_getElem?, List.get?_eq_getElem?]
  simp [List.getElem?_enumFrom, List.enum]

/-- C6: the display id of the test at 0-based position `ti` of the group at
0-based position `gi` is exactly the one-letter status code followed by
`t`, the 1-based group index, `.`, and the 1-based in-group position; the
status codes are `p`, `f`, `e`, `s` for pass, fail, error, skip. -/
theorem tid_format (result : List TestCaseResult) (gi ti : Nat)
    (g : TestGroupReport) (e : TestCaseReport)
    (hg : (generate_report_table result).get? gi = some g)
    (he : g.test_cases.get? ti = some e) :
    e.tid = statusCode e.status ++ "t" ++ natStr (gi + 1) ++ "." ++ natStr (ti + 1)
  ∧ statusCode TestStatus.PASS = "p" ∧ statusCode TestStatus.FAIL = "f"
  ∧ statusCode TestStatus.ERROR = "e" ∧ statusCode TestStatus.SKIP = "s" := by
  refine ⟨?_, rfl, rfl, rfl, rfl⟩
  simp only [generate_report_table] at hg
  rw [get?_map_opt, get?_enum] at hg
  cases hsg : (_sort_result result).get? gi with
  | none => rw [hsg] at hg; cases hg
  | some p =>
      rw [hsg] at hg
      obtain rfl := Option.some.inj hg
      have he' : (p.2.enum.map
          (fun q => generate_test_case_report gi q.1 q.2)).get? ti = some e := he
      rw [get?_map_opt, get?_enum] at he'
      cases hr : p.2.get? ti with
      | none => rw [hr] at he'; cases he'
      | some r =>
          rw [hr] at he'
          obtain rfl := Option.some.inj he'
          rfl

/-- The third group of the report of `resultsW`. -/
def gW : TestGroupReport :=
  ⟨"c3", "C", 1, 0, 1, 0,
   [⟨"pt3.1", "test_c", TestStatus.PASS, none⟩,
    ⟨"et3.2", "test_c", TestStatus.ERROR, some "et3.2: tb"⟩]⟩

/-- The entry at position 1 of `gW`: the error that is the 2nd test of the
3rd group, whose display id is `et3.2`. -/
def eW : TestCaseReport := ⟨"et3.2", "test_c", TestStatus.ERROR, some "et3.2: tb"⟩

/-- Witness for `tid_format`: in the report of `resultsW`, the `ERROR` that
is the 2nd test of the 3rd group has display id `et3.2`. -/
theorem tid_format_witness :
    (generate_report_table resultsW).get? 2 = some gW
  ∧ gW.test_cases.get? 1 = some eW
  ∧ (eW.tid = statusCode eW.status ++ "t" ++ natStr 3 ++ "." ++ natStr 2
     ∧ statusCode TestStatus.PASS = "p" ∧ statusCode TestStatus.FAIL = "f"
     ∧ statusCode TestStatus.ERROR = "e" ∧ statusCode TestStatus.SKIP = "s") :=
  ⟨by decide, by decide, tid_format resultsW 2 1 gW eW (by decide) (by decide)⟩

end HtmlReporter
